import Mathlib

/-!
Verification of the MCP3301 SPI scale reader (`main.c`, `spi.c`, `spi.h`).

The C program is embedded shallowly: each C function that a claim concerns
is translated into a Lean definition over `Nat`/`Int`/`ℚ`, with the results
of the system calls (`open`, `ioctl`, `read`) passed in explicitly as
parameters, since those are the program's only sources of nondeterminism.
Signed 16-bit and 32-bit intermediate values in the C code never leave
their ranges on the paths modelled here (this is argued at each definition),
so plain `Int` arithmetic is a faithful model.
-/

/-- The failure sentinel of `read_mcp3301_single`: the literal `0x8001`
converted to `int16_t`, i.e. the signed value `-32767`. -/
def sentinel : Int := -32767

/-- `read_mcp3301_single` from `main.c`, as a function of the outcome of
`spi_read_two_bytes`: `n` is the byte count it returned and `b0`, `b1` are
the two bytes of `raw_data` (only consulted when `n = 2`). The C routine
builds `data` in an `int16_t` by or-ing `(raw_data[0] & 0x0F) << 8` and
`raw_data[1]` (both fit, the or is at most `0x0FFF`), then subtracts 4096
when bit 4 of `raw_data[0]` is set. -/
def read_mcp3301_single (n : Int) (b0 b1 : Nat) : Int :=
  if n ≠ 2 then sentinel
  else
    let data : Nat := ((b0 &&& 0x0F) <<< 8) ||| b1
    if b0 &&& 0x10 ≠ 0 then (data : Int) - 4096 else (data : Int)

/-- `filter_buffer_t` from `main.c`. The C struct stores the array, its
length `data_len` and the write index `location`; here `data_len` is
`data.length`, which every operation below keeps equal to the allocated
length (`List.set` never changes a list's length). -/
structure filter_buffer where
  data : List Int
  location : Nat
deriving DecidableEq

/-- `fb_new` from `main.c`: allocate `len` slots, zero-fill them
(`memset`), and set `location` to 0. -/
def fb_new (len : Nat) : filter_buffer :=
  ⟨List.replicate len 0, 0⟩

/-- `fb_incr_loc` from `main.c`: advance `location` by one modulo
`data_len`. -/
def fb_incr_loc (fb : filter_buffer) : filter_buffer :=
  { fb with location := (fb.location + 1) % fb.data.length }

/-- `fb_push` from `main.c`: write `val` at the current `location`, then
increment the location. -/
def fb_push (fb : filter_buffer) (val : Int) : filter_buffer :=
  fb_incr_loc { fb with data := fb.data.set fb.location val }

/-- Pushing a list of values in order, oldest first (the repeated
`fb_push` calls of the main loop). -/
def fb_push_all (fb : filter_buffer) (vs : List Int) : filter_buffer :=
  vs.foldl fb_push fb

/-- The loop of `filter_avg` in `main.c`: one left-to-right scan carrying
the running `(max, min, sum)` triple. -/
def fa_scan : List Int → Int × Int × Int → Int × Int × Int
  | [], acc => acc
  | x :: xs, (mx, mn, sm) =>
      fa_scan xs (if x > mx then x else mx, if x < mn then x else mn, sm + x)

/-- `filter_avg` from `main.c`: seed max, min and sum with `data[0]`, scan
the remaining slots, drop one max and one min from the sum and divide by
`data_len - 2`. The C `int` arithmetic is modelled by `Int` (the program
only ever stores 16 decoded readings, far from overflow) and the final
`double` division by exact division in `ℚ`. The empty case is unreachable
in the C code (it would read `data[0]` of an empty array). -/
def filter_avg (fb : filter_buffer) : ℚ :=
  match fb.data with
  | [] => 0
  | d0 :: rest =>
      let s := fa_scan rest (d0, d0, d0)
      ((s.2.2 - s.1 - s.2.1 : Int) : ℚ) / ((fb.data.length - 2 : Nat) : ℚ)

/-- `spi_settings_t` from `spi.h`. The C fields are `uint8_t`/`uint32_t`;
the claims only move them around whole, so `Nat` models their values. -/
structure spi_settings_t where
  mode : Nat
  is_lsb_first : Nat
  bits_per_word : Nat
  max_speed_hz : Nat
deriving DecidableEq

/-- The return codes of the eight `ioctl` requests `spi.c` can issue on a
device: the four `SPI_IOC_RD` gets and the four `SPI_IOC_WR` sets, in
source order. Zero means success. -/
structure spi_ioctl_codes where
  rMode : Int
  rLsb : Int
  rBits : Int
  rSpeed : Int
  wMode : Int
  wLsb : Int
  wBits : Int
  wSpeed : Int
deriving DecidableEq

/-- One configuration write of `spi_write_settings`, recording which sets
were issued and in what order. -/
inductive SpiStep where
  | wrMode
  | wrLsb
  | wrBits
  | wrSpeed
deriving DecidableEq

/-- `spi_read_settings` from `spi.c`: four sequential gets into `settings`
(in `spi_init` this is the process-wide `spi_settings_orig` slot),
short-circuiting on the first nonzero code. `dev` holds the device
configuration that a successful get reads from; a failing get leaves the
target field untouched. Returns the C return value and the updated
struct. -/
def spi_read_settings (c : spi_ioctl_codes) (dev settings : spi_settings_t) :
    Int × spi_settings_t :=
  if c.rMode ≠ 0 then (c.rMode, settings)
  else
    let s1 := { settings with mode := dev.mode }
    if c.rLsb ≠ 0 then (c.rLsb, s1)
    else
      let s2 := { s1 with is_lsb_first := dev.is_lsb_first }
      if c.rBits ≠ 0 then (c.rBits, s2)
      else
        let s3 := { s2 with bits_per_word := dev.bits_per_word }
        if c.rSpeed ≠ 0 then (c.rSpeed, s3)
        else (0, { s3 with max_speed_hz := dev.max_speed_hz })

/-- `spi_write_settings` from `spi.c`: four sequential sets taking fields
from `s`, short-circuiting on the first nonzero code. `dev` is the device
configuration before the call; a successful set applies its field to the
device, a failing one leaves it untouched. Returns the C return value, the
device configuration afterwards, and the list of sets issued, in order. -/
def spi_write_settings (c : spi_ioctl_codes) (s dev : spi_settings_t) :
    Int × spi_settings_t × List SpiStep :=
  if c.wMode ≠ 0 then (c.wMode, dev, [SpiStep.wrMode])
  else
    let d1 := { dev with mode := s.mode }
    if c.wLsb ≠ 0 then (c.wLsb, d1, [SpiStep.wrMode, SpiStep.wrLsb])
    else
      let d2 := { d1 with is_lsb_first := s.is_lsb_first }
      if c.wBits ≠ 0 then
        (c.wBits, d2, [SpiStep.wrMode, SpiStep.wrLsb, SpiStep.wrBits])
      else
        let d3 := { d2 with bits_per_word := s.bits_per_word }
        if c.wSpeed ≠ 0 then
          (c.wSpeed, d3,
            [SpiStep.wrMode, SpiStep.wrLsb, SpiStep.wrBits, SpiStep.wrSpeed])
        else
          (0, { d3 with max_speed_hz := s.max_speed_hz },
            [SpiStep.wrMode, SpiStep.wrLsb, SpiStep.wrBits, SpiStep.wrSpeed])

/-- What a run of `spi_init` did: its return value, the process-wide
`spi_settings_orig` slot afterwards, whether it closed the descriptor it
opened, and whether the settings read and the settings write were
attempted at all. -/
structure spi_init_result where
  ret : Int
  origSlot : spi_settings_t
  closedFd : Bool
  readAttempted : Bool
  writeAttempted : Bool
deriving DecidableEq

/-- `spi_init` from `spi.c`: open the device (`openRet` is the `open`
return value, a descriptor when nonnegative), then read the current
settings into the `spi_settings_orig` slot (`slot0` is its prior value),
then write `desired` to the device. A negative open returns the open
result with nothing else done; a failed read or write closes the
descriptor and returns -1; full success returns the descriptor. -/
def spi_init (c : spi_ioctl_codes) (openRet : Int)
    (dev desired slot0 : spi_settings_t) : spi_init_result :=
  if openRet < 0 then ⟨openRet, slot0, false, false, false⟩
  else
    let r := spi_read_settings c dev slot0
    if r.1 ≠ 0 then ⟨-1, r.2, true, true, false⟩
    else
      let w := spi_write_settings c desired dev
      if w.1 ≠ 0 then ⟨-1, r.2, true, true, true⟩
      else ⟨openRet, r.2, false, true, true⟩

/-- `average16` from `main.c`: accumulate the values into a running total
and divide by the count; the C `double` arithmetic is exact here and is
modelled in `ℚ`. -/
def average16 (vals : List Int) : ℚ :=
  (vals.foldl (fun (acc : ℚ) (v : Int) => acc + (v : ℚ)) 0) / (vals.length : ℚ)

/-- The accumulator of `stdev16` in `main.c`: the running sum of
`pow(vals[i] - avg, 2)`, with `avg` computed once up front. -/
def stdev16_acc (vals : List Int) : ℚ :=
  vals.foldl (fun (acc : ℚ) (v : Int) => acc + ((v : ℚ) - average16 vals) ^ 2) 0

/-- `stdev16` from `main.c`: `sqrt(accumulator / cnt)`. The square root
takes the model into `ℝ`; everything beneath it is exact. -/
noncomputable def stdev16 (vals : List Int) : ℝ :=
  Real.sqrt (((stdev16_acc vals / (vals.length : ℚ) : ℚ) : ℝ))

/-- C1: on the successful-transfer path (byte count exactly 2), the decode
returns `((b0 & 0x0F) << 8) | b1`, minus 4096 exactly when bit 4 of `b0`
is set. -/
theorem read_mcp3301_single_decode (b0 b1 : Nat) (h0 : b0 < 256) (h1 : b1 < 256) :
    read_mcp3301_single 2 b0 b1 =
      if b0 &&& 0x10 = 0 then ((((b0 &&& 0x0F) <<< 8) ||| b1 : Nat) : Int)
      else ((((b0 &&& 0x0F) <<< 8) ||| b1 : Nat) : Int) - 4096 := by
  by_cases hs : b0 &&& 0x10 = 0 <;> simp [read_mcp3301_single, hs]

/-- Witness for C1 at `b0 = 0x01`, `b1 = 0x00`: the decode returns 256. -/
theorem read_mcp3301_single_decode_witness :
    read_mcp3301_single 2 0x01 0x00 =
      if 0x01 &&& 0x10 = 0 then ((((0x01 &&& 0x0F) <<< 8) ||| 0x00 : Nat) : Int)
      else ((((0x01 &&& 0x0F) <<< 8) ||| 0x00 : Nat) : Int) - 4096 :=
  read_mcp3301_single_decode 0x01 0x00 (by decide) (by decide)

/-- C2: whenever the transfer returns a byte count other than 2, the decode
returns the sentinel `0x8001` (signed 16-bit value `-32767`, i.e.
`-32767 ≡ 0x8001 (mod 2^16)`), independently of the bytes in the buffer. -/
theorem read_mcp3301_single_short_read (n : Int) (b0 b1 b0' b1' : Nat) (hn : n ≠ 2) :
    read_mcp3301_single n b0 b1 = sentinel ∧
      sentinel % 65536 = 0x8001 ∧
      read_mcp3301_single n b0 b1 = read_mcp3301_single n b0' b1' := by
  refine ⟨by simp [read_mcp3301_single, hn], by decide, ?_⟩
  simp [read_mcp3301_single, hn]

/-- Witness for C2 at `n = 1` (a short read) with differing junk bytes. -/
theorem read_mcp3301_single_short_read_witness :
    read_mcp3301_single 1 7 7 = sentinel ∧
      sentinel % 65536 = 0x8001 ∧
      read_mcp3301_single 1 7 7 = read_mcp3301_single 1 200 13 :=
  read_mcp3301_single_short_read 1 7 7 200 13 (by decide)

/-- C3: a successful decode lies in `-4096..4095` and hence never collides
with the failure sentinel `-32767`. -/
theorem read_mcp3301_single_range (b0 b1 : Nat) (h0 : b0 < 256) (h1 : b1 < 256) :
    -4096 ≤ read_mcp3301_single 2 b0 b1 ∧
      read_mcp3301_single 2 b0 b1 ≤ 4095 ∧
      read_mcp3301_single 2 b0 b1 ≠ sentinel := by
  have hhi : (b0 &&& 0x0F) <<< 8 < 2 ^ 12 := by
    have hle : b0 &&& 0x0F ≤ 0x0F := Nat.and_le_right
    calc (b0 &&& 0x0F) <<< 8 = (b0 &&& 0x0F) * 2 ^ 8 := Nat.shiftLeft_eq _ _
      _ ≤ 0x0F * 2 ^ 8 := Nat.mul_le_mul_right _ hle
      _ < 2 ^ 12 := by norm_num
  have hlo : b1 < 2 ^ 12 := lt_trans h1 (by norm_num)
  have hd : ((b0 &&& 0x0F) <<< 8) ||| b1 < 2 ^ 12 := Nat.or_lt_two_pow hhi hlo
  have hdi : ((((b0 &&& 0x0F) <<< 8) ||| b1 : Nat) : Int) < 4096 := by
    exact_mod_cast hd
  have hnn : (0 : Int) ≤ ((((b0 &&& 0x0F) <<< 8) ||| b1 : Nat) : Int) := Int.natCast_nonneg _
  by_cases hs : b0 &&& 0x10 = 0 <;>
    simp only [read_mcp3301_single, sentinel, if_neg (by decide : ¬(2 : Int) ≠ 2), hs] <;>
    simp <;> omega

/-- Witness for C3 at `b0 = 0x10`, `b1 = 0x00` (most negative reading). -/
theorem read_mcp3301_single_range_witness :
    -4096 ≤ read_mcp3301_single 2 0x10 0x00 ∧
      read_mcp3301_single 2 0x10 0x00 ≤ 4095 ∧
      read_mcp3301_single 2 0x10 0x00 ≠ sentinel :=
  read_mcp3301_single_range 0x10 0x00 (by decide) (by decide)

/-- C9: the decode only consults bits 0-4 of the first byte, so masking the
top three bits away does not change the result. -/
theorem read_mcp3301_single_high_bits (b0 b1 : Nat) (h0 : b0 < 256) (h1 : b1 < 256) :
    read_mcp3301_single 2 b0 b1 = read_mcp3301_single 2 (b0 &&& 0x1F) b1 := by
  have e15 : (0x1F &&& 0x0F : Nat) = 0x0F := by decide
  have e16 : (0x1F &&& 0x10 : Nat) = 0x10 := by decide
  have h15 : (b0 &&& 0x1F) &&& 0x0F = b0 &&& 0x0F := by
    rw [Nat.and_assoc, e15]
  have h16 : (b0 &&& 0x1F) &&& 0x10 = b0 &&& 0x10 := by
    rw [Nat.and_assoc, e16]
  simp only [read_mcp3301_single, h15, h16]

/-- Witness for C9 at `b0 = 0xF3` (top bits set), `b1 = 0x21`. -/
theorem read_mcp3301_single_high_bits_witness :
    read_mcp3301_single 2 0xF3 0x21 = read_mcp3301_single 2 (0xF3 &&& 0x1F) 0x21 :=
  read_mcp3301_single_high_bits 0xF3 0x21 (by decide) (by decide)

/-- Writing an `if` with a strict greater-than test as a `max`. -/
theorem if_gt_eq_max (x m : Int) : (if x > m then x else m) = max m x := by
  rcases le_or_lt x m with h | h
  · rw [if_neg (not_lt.mpr h), max_eq_left h]
  · rw [if_pos h, max_eq_right h.le]

/-- Writing an `if` with a strict less-than test as a `min`. -/
theorem if_lt_eq_min (x m : Int) : (if x < m then x else m) = min m x := by
  rcases le_or_lt m x with h | h
  · rw [if_neg (not_lt.mpr h), min_eq_left h]
  · rw [if_pos h, min_eq_right h.le]

/-- The scan of `filter_avg` computes folded max, folded min and the sum. -/
theorem fa_scan_eq (xs : List Int) (mx mn sm : Int) :
    fa_scan xs (mx, mn, sm) = (xs.foldl max mx, xs.foldl min mn, sm + xs.sum) := by
  induction xs generalizing mx mn sm with
  | nil => simp [fa_scan]
  | cons x xs ih =>
      simp only [fa_scan, if_gt_eq_max, if_lt_eq_min, ih, List.foldl_cons,
        List.sum_cons, Prod.mk.injEq, add_assoc]

/-- A left fold of `max` yields its seed or a list element, is at least the
seed, and bounds every element from above. -/
theorem foldl_max_is_max (xs : List Int) (a : Int) :
    (xs.foldl max a = a ∨ xs.foldl max a ∈ xs) ∧
      a ≤ xs.foldl max a ∧ ∀ x ∈ xs, x ≤ xs.foldl max a := by
  induction xs generalizing a with
  | nil => simp
  | cons y ys ih =>
      simp only [List.foldl_cons]
      obtain ⟨hmem, hle, hall⟩ := ih (max a y)
      refine ⟨?_, le_trans (le_max_left a y) hle, ?_⟩
      · rcases hmem with h | h
        · rcases max_choice a y with hc | hc
          · exact Or.inl (h.trans hc)
          · exact Or.inr (by rw [h, hc]; exact List.mem_cons_self y ys)
        · exact Or.inr (List.mem_cons_of_mem y h)
      · intro x hx
        rcases List.mem_cons.mp hx with rfl | hx
        · exact le_trans (le_max_right a x) hle
        · exact hall x hx

/-- A left fold of `min` yields its seed or a list element, is at most the
seed, and bounds every element from below. -/
theorem foldl_min_is_min (xs : List Int) (a : Int) :
    (xs.foldl min a = a ∨ xs.foldl min a ∈ xs) ∧
      xs.foldl min a ≤ a ∧ ∀ x ∈ xs, xs.foldl min a ≤ x := by
  induction xs generalizing a with
  | nil => simp
  | cons y ys ih =>
      simp only [List.foldl_cons]
      obtain ⟨hmem, hle, hall⟩ := ih (min a y)
      refine ⟨?_, le_trans hle (min_le_left a y), ?_⟩
      · rcases hmem with h | h
        · rcases min_choice a y with hc | hc
          · exact Or.inl (h.trans hc)
          · exact Or.inr (by rw [h, hc]; exact List.mem_cons_self y ys)
        · exact Or.inr (List.mem_cons_of_mem y h)
      · intro x hx
        rcases List.mem_cons.mp hx with rfl | hx
        · exact le_trans hle (min_le_right a x)
        · exact hall x hx

/-- `filter_avg` on a nonempty buffer, in closed form. -/
theorem filter_avg_cons (d0 : Int) (rest : List Int) (loc : Nat) :
    filter_avg ⟨d0 :: rest, loc⟩ =
      (((d0 + rest.sum) - rest.foldl max d0 - rest.foldl min d0 : Int) : ℚ)
        / (((d0 :: rest).length - 2 : Nat) : ℚ) := by
  simp [filter_avg, fa_scan_eq]


/-- C4: for any buffer with at least 3 slots, `filter_avg` returns
`(S - M - m) / (L - 2)` where `S` is the sum of all stored values and `M`
and `m` are the maximum and minimum stored values, each removed exactly
once even when duplicated; and a length-16 buffer whose 16 slots all hold
`V` averages to exactly `V`. -/
theorem filter_avg_trimmed (fb : filter_buffer) (h3 : 3 ≤ fb.data.length) :
    (∃ M m, (M ∈ fb.data ∧ ∀ x ∈ fb.data, x ≤ M) ∧
        (m ∈ fb.data ∧ ∀ x ∈ fb.data, m ≤ x) ∧
        filter_avg fb = ((fb.data.sum - M - m : Int) : ℚ)
          / ((fb.data.length - 2 : Nat) : ℚ)) ∧
      ∀ (V : Int) (loc : Nat), filter_avg ⟨List.replicate 16 V, loc⟩ = (V : ℚ) := by
  constructor
  · obtain ⟨data, loc⟩ := fb
    cases data with
    | nil => simp at h3
    | cons d0 rest =>
        obtain ⟨hMmem, hMseed, hMall⟩ := foldl_max_is_max rest d0
        obtain ⟨hmmem, hmseed, hmall⟩ := foldl_min_is_min rest d0
        refine ⟨rest.foldl max d0, rest.foldl min d0, ⟨?_, ?_⟩, ⟨?_, ?_⟩, ?_⟩
        · rcases hMmem with h | h
          · rw [h]; exact List.mem_cons_self d0 rest
          · exact List.mem_cons_of_mem d0 h
        · intro x hx
          rcases List.mem_cons.mp hx with rfl | hx
          · exact hMseed
          · exact hMall x hx
        · rcases hmmem with h | h
          · rw [h]; exact List.mem_cons_self d0 rest
          · exact List.mem_cons_of_mem d0 h
        · intro x hx
          rcases List.mem_cons.mp hx with rfl | hx
          · exact hmseed
          · exact hmall x hx
        · rw [filter_avg_cons]
          simp [List.sum_cons]
  · intro V loc
    have h16 : List.replicate 16 V = V :: List.replicate 15 V := rfl
    rw [h16, filter_avg_cons]
    have hmax : (List.replicate 15 V).foldl max V = V := by
      rcases (foldl_max_is_max (List.replicate 15 V) V).1 with h | h
      · exact h
      · exact List.eq_of_mem_replicate h
    have hmin : (List.replicate 15 V).foldl min V = V := by
      rcases (foldl_min_is_min (List.replicate 15 V) V).1 with h | h
      · exact h
      · exact List.eq_of_mem_replicate h
    have hsum : (List.replicate 15 V).sum = 15 * V := by
      simp [List.sum_replicate, nsmul_eq_mul]
      ring
    rw [hmax, hmin, hsum]
    have h14 : (((V :: List.replicate 15 V).length - 2 : Nat) : ℚ) = 14 := by
      norm_num
    rw [h14]
    have hnum : ((V + 15 * V - V - V : Int) : ℚ) = (V : ℚ) * 14 := by
      push_cast
      ring
    rw [hnum]
    exact mul_div_cancel_right₀ (V : ℚ) (by norm_num)

/-- Witness for C4 at the concrete buffer `[1, 5, 3]`. -/
theorem filter_avg_trimmed_witness :
    (∃ M m, (M ∈ (⟨[1, 5, 3], 0⟩ : filter_buffer).data ∧
          ∀ x ∈ (⟨[1, 5, 3], 0⟩ : filter_buffer).data, x ≤ M) ∧
        (m ∈ (⟨[1, 5, 3], 0⟩ : filter_buffer).data ∧
          ∀ x ∈ (⟨[1, 5, 3], 0⟩ : filter_buffer).data, m ≤ x) ∧
        filter_avg ⟨[1, 5, 3], 0⟩ =
          (((⟨[1, 5, 3], 0⟩ : filter_buffer).data.sum - M - m : Int) : ℚ)
            / (((⟨[1, 5, 3], 0⟩ : filter_buffer).data.length - 2 : Nat) : ℚ)) ∧
      ∀ (V : Int) (loc : Nat), filter_avg ⟨List.replicate 16 V, loc⟩ = (V : ℚ) :=
  filter_avg_trimmed ⟨[1, 5, 3], 0⟩ (by decide)

/-- `fb_push` leaves the buffer length unchanged. -/
theorem fb_push_data_length (fb : filter_buffer) (v : Int) :
    (fb_push fb v).data.length = fb.data.length := by
  simp [fb_push, fb_incr_loc]

/-- The location after one `fb_push`. -/
theorem fb_push_location (fb : filter_buffer) (v : Int) :
    (fb_push fb v).location = (fb.location + 1) % fb.data.length := by
  simp [fb_push, fb_incr_loc]

/-- Pushing any list of values leaves the buffer length unchanged. -/
theorem fb_push_all_data_length (vs : List Int) (fb : filter_buffer) :
    (fb_push_all fb vs).data.length = fb.data.length := by
  induction vs generalizing fb with
  | nil => rfl
  | cons v vs ih =>
      have step : fb_push_all fb (v :: vs) = fb_push_all (fb_push fb v) vs := rfl
      rw [step, ih (fb_push fb v), fb_push_data_length]

/-- The location after pushing a list of values: it advances by the number
of pushes, modulo the length. -/
theorem fb_push_all_location (vs : List Int) (fb : filter_buffer)
    (h : fb.location < fb.data.length) :
    (fb_push_all fb vs).location = (fb.location + vs.length) % fb.data.length := by
  induction vs generalizing fb with
  | nil => simp [fb_push_all, Nat.mod_eq_of_lt h]
  | cons v vs ih =>
      have hN : 0 < fb.data.length := Nat.lt_of_le_of_lt (Nat.zero_le _) h
      have hlen : (fb_push fb v).data.length = fb.data.length :=
        fb_push_data_length fb v
      have hloc : (fb_push fb v).location < (fb_push fb v).data.length := by
        rw [fb_push_location, hlen]
        exact Nat.mod_lt _ hN
      have step : fb_push_all fb (v :: vs) = fb_push_all (fb_push fb v) vs := rfl
      rw [step, ih (fb_push fb v) hloc, hlen, fb_push_location, Nat.mod_add_mod]
      simp only [List.length_cons]
      congr 1
      omega

/-- Reading back an in-bounds `List.set`. -/
theorem getD_set_self (l : List Int) (i : Nat) (a : Int) (h : i < l.length) :
    (l.set i a).getD i 0 = a := by
  induction l generalizing i with
  | nil => simp at h
  | cons x xs ih =>
      cases i with
      | zero => rfl
      | succ j =>
          have hj : j < xs.length := by simpa using h
          simpa [List.set_cons_succ, List.getD_cons_succ] using ih j hj

/-- C5 counterexample: for `N = 1`, pushing the 2 values 5 then 7 into a
fresh length-1 buffer leaves slot 0 holding the last value, but the write
position is 0, not 1 as the claim states. -/
theorem fb_push_wraparound_cex :
    (fb_push_all (fb_new 1) [5, 7]).data.getD 0 0 = 7 ∧
      (fb_push_all (fb_new 1) [5, 7]).location = 0 ∧
      ¬(fb_push_all (fb_new 1) [5, 7]).location = 1 := by
  decide

/-- C5 (amended): after pushing N+1 values into a fresh length-N buffer,
slot 0 holds the last pushed value and the write position equals `1 % N`
(1 for every N of at least 2, but 0 when N = 1); and each push writes at
the current write position and then advances it by one modulo the buffer
length. -/
theorem fb_push_wraparound (N : Nat) (hN : 1 ≤ N) (vs : List Int)
    (hvs : vs.length = N) (v : Int) :
    ((fb_push_all (fb_new N) (vs ++ [v])).data.getD 0 0 = v ∧
      (fb_push_all (fb_new N) (vs ++ [v])).location = 1 % N) ∧
      ∀ (fb : filter_buffer) (w : Int),
        (fb_push fb w).data = fb.data.set fb.location w ∧
        (fb_push fb w).location = (fb.location + 1) % fb.data.length := by
  have hnew_len : (fb_new N).data.length = N := by simp [fb_new]
  have hnew_loc : (fb_new N).location = 0 := rfl
  have hloc0 : (fb_new N).location < (fb_new N).data.length := by
    rw [hnew_loc, hnew_len]
    omega
  have hA_len : (fb_push_all (fb_new N) vs).data.length = N := by
    rw [fb_push_all_data_length, hnew_len]
  have hA_loc : (fb_push_all (fb_new N) vs).location = 0 := by
    rw [fb_push_all_location vs _ hloc0, hnew_loc, hnew_len, hvs]
    simp [Nat.mod_self]
  have hsplit : fb_push_all (fb_new N) (vs ++ [v])
      = fb_push (fb_push_all (fb_new N) vs) v := by
    simp [fb_push_all, List.foldl_append]
  refine ⟨⟨?_, ?_⟩, ?_⟩
  · rw [hsplit]
    have hdata : (fb_push (fb_push_all (fb_new N) vs) v).data
        = (fb_push_all (fb_new N) vs).data.set 0 v := by
      rw [← hA_loc]
      rfl
    rw [hdata]
    exact getD_set_self _ 0 v (by rw [hA_len]; omega)
  · rw [hsplit, fb_push_location, hA_loc, hA_len]
  · intro fb w
    exact ⟨rfl, fb_push_location fb w⟩

/-- Witness for C5 (amended) at `N = 2`, pushing 3, 4 then 9. -/
theorem fb_push_wraparound_witness :
    ((fb_push_all (fb_new 2) ([3, 4] ++ [9])).data.getD 0 0 = 9 ∧
      (fb_push_all (fb_new 2) ([3, 4] ++ [9])).location = 1 % 2) ∧
      ∀ (fb : filter_buffer) (w : Int),
        (fb_push fb w).data = fb.data.set fb.location w ∧
        (fb_push fb w).location = (fb.location + 1) % fb.data.length :=
  fb_push_wraparound 2 (by decide) [3, 4] (by decide) 9

/-- C10: a fresh length-L buffer has all L slots zeroed and its location 0,
which is in bounds for positive L, and `fb_push` preserves the in-bounds
invariant, keeps the length, and its write lands at the (in-bounds) current
location. -/
theorem fb_location_invariant (L : Nat) (hL : 1 ≤ L) :
    ((fb_new L).data = List.replicate L 0 ∧ (fb_new L).location = 0 ∧
      (fb_new L).location < (fb_new L).data.length) ∧
      ∀ (fb : filter_buffer) (v : Int), fb.location < fb.data.length →
        (fb_push fb v).location < (fb_push fb v).data.length ∧
        (fb_push fb v).data.length = fb.data.length ∧
        (fb_push fb v).data.getD fb.location 0 = v := by
  refine ⟨⟨rfl, rfl, ?_⟩, ?_⟩
  · simp [fb_new]
    omega
  · intro fb v h
    have hN : 0 < fb.data.length := Nat.lt_of_le_of_lt (Nat.zero_le _) h
    refine ⟨?_, fb_push_data_length fb v, ?_⟩
    · rw [fb_push_location, fb_push_data_length]
      exact Nat.mod_lt _ hN
    · exact getD_set_self fb.data fb.location v h

/-- Witness for C10 at `L = 16` and one concrete in-bounds push. -/
theorem fb_location_invariant_witness :
    ((fb_new 16).data = List.replicate 16 0 ∧ (fb_new 16).location = 0 ∧
      (fb_new 16).location < (fb_new 16).data.length) ∧
      ((fb_push ⟨[1, 2], 1⟩ 5).location < (fb_push ⟨[1, 2], 1⟩ 5).data.length ∧
        (fb_push ⟨[1, 2], 1⟩ 5).data.length = ([1, 2] : List Int).length ∧
        (fb_push ⟨[1, 2], 1⟩ 5).data.getD 1 0 = 5) :=
  ⟨(fb_location_invariant 16 (by decide)).1,
    (fb_location_invariant 16 (by decide)).2 ⟨[1, 2], 1⟩ 5 (by decide)⟩

/-- A fully successful settings read stores exactly the device's
configuration in the target struct. -/
theorem spi_read_settings_success (c : spi_ioctl_codes) (dev settings : spi_settings_t)
    (h : (spi_read_settings c dev settings).1 = 0) :
    (spi_read_settings c dev settings).2 = dev := by
  obtain ⟨m, l, b, sp⟩ := dev
  unfold spi_read_settings at *
  by_cases h1 : c.rMode = 0 <;> by_cases h2 : c.rLsb = 0 <;>
    by_cases h3 : c.rBits = 0 <;> by_cases h4 : c.rSpeed = 0 <;>
    simp_all

/-- C7: `spi_write_settings` issues its sets in the order mode, bit
ordering, word size, max speed; it returns 0 iff all four succeed;
otherwise it returns the code of the first failing set, issues nothing
after it, and the sets issued before it remain applied to the device. -/
theorem spi_write_settings_spec (c : spi_ioctl_codes) (s dev : spi_settings_t) :
    ((spi_write_settings c s dev).1 = 0 ↔
      c.wMode = 0 ∧ c.wLsb = 0 ∧ c.wBits = 0 ∧ c.wSpeed = 0) ∧
    (c.wMode ≠ 0 →
      spi_write_settings c s dev = (c.wMode, dev, [SpiStep.wrMode])) ∧
    (c.wMode = 0 → c.wLsb ≠ 0 →
      spi_write_settings c s dev =
        (c.wLsb, { dev with mode := s.mode }, [SpiStep.wrMode, SpiStep.wrLsb])) ∧
    (c.wMode = 0 → c.wLsb = 0 → c.wBits ≠ 0 →
      spi_write_settings c s dev =
        (c.wBits, { dev with mode := s.mode, is_lsb_first := s.is_lsb_first },
          [SpiStep.wrMode, SpiStep.wrLsb, SpiStep.wrBits])) ∧
    (c.wMode = 0 → c.wLsb = 0 → c.wBits = 0 → c.wSpeed ≠ 0 →
      spi_write_settings c s dev =
        (c.wSpeed,
          { dev with mode := s.mode, is_lsb_first := s.is_lsb_first, bits_per_word := s.bits_per_word },
          [SpiStep.wrMode, SpiStep.wrLsb, SpiStep.wrBits, SpiStep.wrSpeed])) ∧
    (c.wMode = 0 → c.wLsb = 0 → c.wBits = 0 → c.wSpeed = 0 →
      spi_write_settings c s dev =
        (0, ⟨s.mode, s.is_lsb_first, s.bits_per_word, s.max_speed_hz⟩,
          [SpiStep.wrMode, SpiStep.wrLsb, SpiStep.wrBits, SpiStep.wrSpeed])) := by
  unfold spi_write_settings
  by_cases h1 : c.wMode = 0 <;> by_cases h2 : c.wLsb = 0 <;>
    by_cases h3 : c.wBits = 0 <;> by_cases h4 : c.wSpeed = 0 <;>
    simp [h1, h2, h3, h4]

/-- C6: `spi_init` on a failed open returns the negative open result with
no settings read or write attempted and the slot untouched; on a failed
settings read it closes the descriptor and returns -1 (necessarily
distinct from the now-nonnegative open result) without attempting the
write; on a failed settings write it closes the descriptor and returns -1;
on full success it returns the open descriptor without closing it, and the
original-settings slot holds exactly the settings read from the device. -/
theorem spi_init_spec (c : spi_ioctl_codes) (openRet : Int)
    (dev desired slot0 : spi_settings_t) :
    (openRet < 0 →
      spi_init c openRet dev desired slot0 =
        ⟨openRet, slot0, false, false, false⟩) ∧
    (0 ≤ openRet → (spi_read_settings c dev slot0).1 ≠ 0 →
      spi_init c openRet dev desired slot0 =
          ⟨-1, (spi_read_settings c dev slot0).2, true, true, false⟩ ∧
        (spi_init c openRet dev desired slot0).ret ≠ openRet) ∧
    (0 ≤ openRet → (spi_read_settings c dev slot0).1 = 0 →
      (spi_write_settings c desired dev).1 ≠ 0 →
      spi_init c openRet dev desired slot0 =
        ⟨-1, (spi_read_settings c dev slot0).2, true, true, true⟩) ∧
    (0 ≤ openRet → (spi_read_settings c dev slot0).1 = 0 →
      (spi_write_settings c desired dev).1 = 0 →
      (spi_init c openRet dev desired slot0).ret = openRet ∧
        (spi_init c openRet dev desired slot0).closedFd = false ∧
        (spi_init c openRet dev desired slot0).origSlot = dev) := by
  refine ⟨?_, ?_, ?_, ?_⟩
  · intro ho
    simp [spi_init, ho]
  · intro ho hr
    have ho' : ¬openRet < 0 := not_lt.mpr ho
    refine ⟨by simp [spi_init, ho', hr], ?_⟩
    simp only [spi_init, if_neg ho', if_pos hr]
    intro hc
    omega
  · intro ho hr hw
    have ho' : ¬openRet < 0 := not_lt.mpr ho
    simp [spi_init, ho', hr, hw]
  · intro ho hr hw
    have ho' : ¬openRet < 0 := not_lt.mpr ho
    have hslot := spi_read_settings_success c dev slot0 hr
    refine ⟨?_, ?_, ?_⟩ <;> simp [spi_init, ho', hr, hw, hslot]

/-- Rewriting the running-total fold of `average16`/`stdev16` as a mapped
sum. -/
theorem foldl_add_map (f : Int → ℚ) (l : List Int) (b : ℚ) :
    l.foldl (fun (acc : ℚ) (v : Int) => acc + f v) b = b + (l.map f).sum := by
  induction l generalizing b with
  | nil => simp
  | cons x xs ih =>
      simp [List.foldl_cons, List.map_cons, List.sum_cons, ih, add_assoc]

/-- The sum of a list of integers, cast to `ℚ`, term by term. -/
theorem sum_map_intCast (l : List Int) :
    (l.map (fun v : Int => (v : ℚ))).sum = ((l.sum : Int) : ℚ) := by
  induction l with
  | nil => simp
  | cons x xs ih =>
      rw [List.map_cons, List.sum_cons, List.sum_cons, ih]
      push_cast
      ring

/-- C8: `average16` computes the arithmetic mean, `stdev16` the population
standard deviation (square root of the mean squared deviation, divisor
`cnt`, not `cnt - 1`), and on the textbook input {2, 4, 4, 4, 5, 5, 7, 9}
they return 5 and 2. -/
theorem stats_mean_stdev :
    (∀ vals : List Int,
      average16 vals = ((vals.sum : Int) : ℚ) / (vals.length : ℚ)) ∧
    (∀ vals : List Int, stdev16 vals =
      Real.sqrt ((((vals.map (fun (v : Int) => ((v : ℚ) - average16 vals) ^ 2)).sum
        / (vals.length : ℚ) : ℚ) : ℝ))) ∧
    average16 [2, 4, 4, 4, 5, 5, 7, 9] = 5 ∧
    stdev16 [2, 4, 4, 4, 5, 5, 7, 9] = 2 := by
  have havg : ∀ vals : List Int,
      average16 vals = ((vals.sum : Int) : ℚ) / (vals.length : ℚ) := by
    intro vals
    rw [average16, foldl_add_map, sum_map_intCast, zero_add]
  have hacc : ∀ vals : List Int, stdev16_acc vals =
      (vals.map (fun (v : Int) => ((v : ℚ) - average16 vals) ^ 2)).sum := by
    intro vals
    rw [stdev16_acc, foldl_add_map, zero_add]
  have hA : average16 [2, 4, 4, 4, 5, 5, 7, 9] = 5 := by
    rw [havg]
    simp [List.sum_cons, List.sum_nil]
    norm_num
  refine ⟨havg, ?_, hA, ?_⟩
  · intro vals
    rw [stdev16, hacc]
  · have hacc4 : stdev16_acc [2, 4, 4, 4, 5, 5, 7, 9] = 32 := by
      rw [hacc]
      simp [List.map_cons, List.map_nil, List.sum_cons, List.sum_nil, hA]
      norm_num
    have h4 : (stdev16_acc [2, 4, 4, 4, 5, 5, 7, 9]
        / (([2, 4, 4, 4, 5, 5, 7, 9] : List Int).length : ℚ) : ℚ) = 4 := by
      rw [hacc4]
      norm_num
    simp only [stdev16, h4]
    have h22 : (((4 : ℚ)) : ℝ) = (2 : ℝ) ^ 2 := by norm_num
    rw [h22, Real.sqrt_sq (by norm_num : (0 : ℝ) ≤ 2)]
